import Mathlib

/-!
Verification of the WatchDOG 2.0 crypto-signal scanner core.

Shallow embedding of the scoring, confidence/duration estimation and
prediction-lifecycle code from
`crypto-signal-bot/backend/src/scanner/score.ts`,
`crypto-signal-bot/backend/src/scanner/index.ts`,
`crypto-signal-bot/backend/src/ingest/exchange.ts` and
`crypto-signal-bot/backend/src/db/predictions.ts`.
JavaScript numbers are modelled as rationals, JS `Map`/`Record` objects as
insertion-ordered association lists, and the externally-driven rejection
checks (market state, order book, entry zones) as boolean fields of the
candidate record.
-/

namespace WatchDog

/-- JavaScript `x || d` on an optional number: `undefined` and `0` are falsy. -/
def jsOr (o : Option ℚ) (d : ℚ) : ℚ :=
  match o with
  | some v => if v = 0 then d else v
  | none => d

/-- JavaScript `String.prototype.split` with a one-character separator,
acting on the character list of the string. -/
def splitOnChar (c : Char) : List Char → List (List Char)
  | [] => [[]]
  | x :: xs =>
    if x = c then [] :: splitOnChar c xs
    else
      match splitOnChar c xs with
      | [] => [[x]]
      | y :: ys => (x :: y) :: ys

/-- First-occurrence deduplication, the key order of a JS `Record` or `Map`
built by repeated assignment. -/
def firstDedup {α : Type} [BEq α] : List α → List α
  | [] => []
  | k :: ks => k :: firstDedup (ks.filter (fun x => ¬ (x == k)))
termination_by l => l.length
decreasing_by
  simp_wf
  exact Nat.lt_succ_of_le (List.length_filter_le _ _)

/-- JS `Record<string, number>` assignment `m[k] = v`: overwrite in place when
the key exists, append otherwise. -/
def recordSet (m : List (String × ℚ)) (k : String) (v : ℚ) : List (String × ℚ) :=
  if m.any (fun e => e.1 == k) then
    m.map (fun e => if e.1 == k then (k, v) else e)
  else m ++ [(k, v)]

/-- Signal direction; the TypeScript type is `'long' | 'short' | null` and the
`null` (neutral) case is modelled with `Option Direction`. -/
inductive Direction where
  | long
  | short
deriving DecidableEq

/-- The string a direction interpolates to in a JS template literal. -/
def dirString : Direction → String
  | .long => "long"
  | .short => "short"

/-- `IndicatorFeature` from `scanner/score.ts`: `weight` and `strength` are
optional (`weight?`, `strength?`). -/
structure IndicatorFeature where
  name : String
  timeframe : String
  direction : Option Direction
  weight : Option ℚ
  strength : Option ℚ
deriving DecidableEq

/-- `(f.weight ?? 1) * (f.strength ?? 1)` from `computeScore`. -/
def contributionBase (f : IndicatorFeature) : ℚ :=
  f.weight.getD 1 * f.strength.getD 1

/-- The breakdown key `` `${f.name}_${f.timeframe}_${f.direction}` ``. -/
def featureKey (f : IndicatorFeature) (d : Direction) : String :=
  f.name ++ "_" ++ f.timeframe ++ "_" ++ dirString d

/-- The `breakdown` record after the per-feature loop of `computeScore`:
one assignment `breakdown[key] = base` per non-neutral feature. -/
def buildBreakdown (features : List IndicatorFeature) : List (String × ℚ) :=
  features.foldl
    (fun m f =>
      match f.direction with
      | none => m
      | some d => recordSet m (featureKey f d) (contributionBase f))
    []

/-- `longScore`: sum of contributions of the features with direction long. -/
def longScore (features : List IndicatorFeature) : ℚ :=
  ((features.filter (fun f => f.direction == some Direction.long)).map contributionBase).sum

/-- `shortScore`: sum of contributions of the features with direction short. -/
def shortScore (features : List IndicatorFeature) : ℚ :=
  ((features.filter (fun f => f.direction == some Direction.short)).map contributionBase).sum

/-- `indicatorCount`: number of non-neutral features. -/
def indicatorCount (features : List IndicatorFeature) : ℕ :=
  (features.filter (fun f => f.direction.isSome)).length

/-- `rawScore = longScore - shortScore`. -/
def rawScore (features : List IndicatorFeature) : ℚ :=
  longScore features - shortScore features

/-- `maxImbalance = Math.max(longScore, shortScore) * 0.7`. -/
def maxImbalance (features : List IndicatorFeature) : ℚ :=
  max (longScore features) (shortScore features) * (7 / 10)

/-- The balance clamp of `computeScore`. -/
def balancedScore (features : List IndicatorFeature) : ℚ :=
  if |rawScore features| > maxImbalance features then
    (if rawScore features > 0 then maxImbalance features else -maxImbalance features)
  else rawScore features

/-- The minimum-confluence gate (`minIndicators = 3`): below three directional
signals the balanced score is forced to `0`. -/
def gatedScore (features : List IndicatorFeature) : ℚ :=
  if indicatorCount features < 3 then 0 else balancedScore features

/-- The co-occurrence grouping key of a breakdown key:
`` const parts = k.split('_'); `${parts[1]}_${parts[2]}` ``. -/
def groupKey (k : String) : String :=
  let parts := splitOnChar '_' k.data
  String.mk (parts.getD 1 []) ++ "_" ++ String.mk (parts.getD 2 [])

/-- `k.endsWith('long') ? 1 : -1` for a group key. -/
def groupSign (k2 : String) : ℚ :=
  if "long".data.isSuffixOf k2.data then 1 else -1

/-- The co-occurrence bonus loop of `computeScore`: group the breakdown keys by
`groupKey`, and for each group with at least three keys add
`(count - 2) * 0.3` signed by `groupSign`. -/
def cooccurrenceBonus (keys : List String) : ℚ :=
  ((firstDedup (keys.map groupKey)).map
    (fun g =>
      let c := (keys.filter (fun k => groupKey k == g)).length
      if 3 ≤ c then ((c : ℚ) - 2) * (3 / 10) * groupSign g else 0)).sum

/-- `cardContribution = cardCount * 0.15 - cardPenalty` with
`cardPenalty = |cardCount| > 5 ? |cardCount| * 0.1 : 0`. -/
def cardContribution (cardCount : ℤ) : ℚ :=
  (cardCount : ℚ) * (3 / 20) -
    (if 5 < |cardCount| then ((|cardCount| : ℤ) : ℚ) * (1 / 10) else 0)

/-- Return type of `computeScore`. -/
structure ScoreResult where
  score : ℚ
  indicatorCount : ℕ
  breakdown : List (String × ℚ)
deriving DecidableEq

/-- `computeScore` from `scanner/score.ts`: directional totals, balance clamp,
minimum-confluence gate, co-occurrence bonus, card-count contribution, and the
diagnostic keys spliced into the returned breakdown. -/
def computeScore (features : List IndicatorFeature) (cardCount : ℤ) : ScoreResult :=
  let breakdown := buildBreakdown features
  { score :=
      gatedScore features + cooccurrenceBonus (breakdown.map Prod.fst) +
        cardContribution cardCount
    indicatorCount := indicatorCount features
    breakdown :=
      recordSet (recordSet (recordSet (recordSet breakdown
        "_longTotal" (longScore features))
        "_shortTotal" (shortScore features))
        "_rawScore" (rawScore features))
        "_cardContribution" (cardContribution cardCount) }

/-- `estimateRunDuration` from `scanner/score.ts`: base 30 minutes, score-scaled
extra capped at 210, 30 minutes per agreeing higher timeframe, total capped at
240 minutes, returned in milliseconds. -/
def estimateRunDuration (score : ℚ) (timeframesAgreement : List String) : ℚ :=
  let base : ℚ := 30
  let extra := min (max (score * 10) 0) 210
  let hf := (timeframesAgreement.filter (fun t => ["1h", "2h", "4h"].contains t)).length
  let hfBonus : ℚ := (hf : ℚ) * 30
  let total := min 240 (base + extra + hfBonus)
  total * 60 * 1000

/-! ## Confidence estimation (`scanner/index.ts` and `ingest/exchange.ts`) -/

/-- The timeframe weight table of `getTimeframeAgreementScore`. -/
def timeframeWeights : List (String × ℚ) :=
  [("1m", 3 / 10), ("3m", 1 / 2), ("5m", 7 / 10), ("15m", 1),
   ("30m", 13 / 10), ("1h", 17 / 10), ("2h", 11 / 5), ("4h", 3)]

/-- `timeframeWeights[tf] || 1.0`. -/
def tfWeight (tf : String) : ℚ :=
  jsOr (timeframeWeights.lookup tf) 1

/-- The timeframes holding at least one directional feature, in first-occurrence
order (the key order of the `directionCounts` record). -/
def directionalTimeframes (features : List IndicatorFeature) : List String :=
  firstDedup ((features.filter (fun f => f.direction.isSome)).map (fun f => f.timeframe))

/-- Number of features of a given direction on a given timeframe. -/
def countDir (features : List IndicatorFeature) (tf : String) (d : Direction) : ℕ :=
  (features.filter (fun f => f.timeframe == tf && f.direction == some d)).length

namespace MarketScanner

/-- `getTimeframeAgreementScore` from `scanner/index.ts`: per-timeframe
agreement `maxCount / totalCount`, weighted by the timeframe weight and the
indicator count, normalised by the maximum possible. -/
def getTimeframeAgreementScore (features : List IndicatorFeature) : ℚ :=
  let terms := (directionalTimeframes features).map (fun tf =>
    let cl := countDir features tf Direction.long
    let cs := countDir features tf Direction.short
    let w := tfWeight tf
    let maxCount : ℚ := (max cl cs : ℕ)
    let totalCount : ℚ := ((cl + cs : ℕ) : ℚ)
    if 0 < totalCount then (maxCount / totalCount * w * totalCount, w * totalCount) else (0, 0))
  let totalAgreement := (terms.map Prod.fst).sum
  let maxPossible := (terms.map Prod.snd).sum
  if 0 < maxPossible then totalAgreement / maxPossible else 0

/-- `getHigherTimeframeBonus`: tiered bonus by the number of directional
features on the `1h`/`2h`/`4h` timeframes. -/
def getHigherTimeframeBonus (features : List IndicatorFeature) : ℚ :=
  let htfCount :=
    (features.filter (fun f => ["1h", "2h", "4h"].contains f.timeframe && f.direction.isSome)).length
  if 3 ≤ htfCount then 8 else if 2 ≤ htfCount then 5 else if 1 ≤ htfCount then 2 else 0

/-- `getVolumeConfirmationBonus`: mean strength of `VOLUME` features times 5. -/
def getVolumeConfirmationBonus (features : List IndicatorFeature) : ℚ :=
  let volumeFeatures := features.filter (fun f => f.name == "VOLUME")
  if 0 < volumeFeatures.length then
    (volumeFeatures.map (fun f => jsOr f.strength 0)).sum / (volumeFeatures.length : ℚ) * 5
  else 0

/-- `getMarketMomentumBonus`: 2 points per strong RSI/MACD feature, capped at 8. -/
def getMarketMomentumBonus (features : List IndicatorFeature) : ℚ :=
  let momentumIndicators := features.filter (fun f =>
    (f.name == "RSI" && decide ((7 : ℚ) / 10 < jsOr f.strength 0)) ||
    (f.name == "MACD" && decide ((3 : ℚ) / 5 < jsOr f.strength 0)))
  min ((momentumIndicators.length : ℚ) * 2) 8

/-- `calculateConfidence` from `scanner/index.ts`: weighted bonus sum clamped
into `[5, 95]`. -/
def calculateConfidence (score : ℚ) (indicatorCount : ℕ)
    (features : List IndicatorFeature) : ℚ :=
  let baseConfidence := min (|score| * 6) 50
  let indicatorBonus := min ((indicatorCount : ℚ) * (6 / 5)) 12
  let avgStrength := (features.map (fun f => jsOr f.strength 0)).sum / (features.length : ℚ)
  let strengthBonus := avgStrength * 8
  let agreementBonus := getTimeframeAgreementScore features * 15
  let htfBonus := getHigherTimeframeBonus features
  let volumeBonus := getVolumeConfirmationBonus features
  let momentumBonus := getMarketMomentumBonus features
  let historyBonus : ℚ := 3
  let longFeatures := (features.filter (fun f => f.direction == some Direction.long)).length
  let shortFeatures := (features.filter (fun f => f.direction == some Direction.short)).length
  let contrarianBonus : ℚ := if 0 < score ∧ longFeatures < shortFeatures then 8 else 0
  let totalConfidence := baseConfidence + indicatorBonus + strengthBonus + agreementBonus +
    htfBonus + volumeBonus + momentumBonus + historyBonus + contrarianBonus
  min (max totalConfidence 5) 95

end MarketScanner

namespace Exchange

/-- `getTimeframeAgreementScore` from `ingest/exchange.ts`: unweighted mean of
the per-timeframe agreement ratios. -/
def getTimeframeAgreementScore (features : List IndicatorFeature) : ℚ :=
  let terms := (directionalTimeframes features).map (fun tf =>
    let cl := countDir features tf Direction.long
    let cs := countDir features tf Direction.short
    let totalCount := cl + cs
    if 0 < totalCount then (((max cl cs : ℕ) : ℚ) / ((totalCount : ℕ) : ℚ), (1 : ℕ)) else (0, 0))
  let totalAgreement := (terms.map Prod.fst).sum
  let totalTimeframes := (terms.map Prod.snd).sum
  if 0 < totalTimeframes then totalAgreement / (totalTimeframes : ℚ) else 0

/-- `calculateConfidence` from `ingest/exchange.ts`: score, indicator-count and
agreement bonuses clamped into `[10, 95]`. -/
def calculateConfidence (score : ℚ) (indicatorCount : ℕ)
    (features : List IndicatorFeature) : ℚ :=
  let baseConfidence := min (|score| * 10) 50
  let indicatorBonus := min ((indicatorCount : ℚ) * 2) 20
  let agreementBonus := getTimeframeAgreementScore features * 25
  min (max (baseConfidence + indicatorBonus + agreementBonus) 10) 95

end Exchange

/-! ## Prediction lifecycle (`scanner/index.ts`) -/

/-- Remove the first occurrence of a character, the JS
`s.replace('/', '')` pattern with a plain string argument. -/
def removeFirstChar (c : Char) : List Char → List Char
  | [] => []
  | x :: xs => if x = c then xs else x :: removeFirstChar c xs

/-- JS `String.prototype.toUpperCase` on basic latin strings. -/
def jsToUpperCase (s : String) : String :=
  String.mk (s.data.map Char.toUpper)

/-- `symbol.replace('/', '').toUpperCase()`, the symbol normalisation used
throughout the lifecycle manager. -/
def normalizeSymbol (s : String) : String :=
  jsToUpperCase (String.mk (removeFirstChar '/' s.data))

/-- The state-relevant fields of a `Prediction` from `scanner/index.ts`. -/
structure Prediction where
  id : String
  symbol : String
  direction : Direction
  score : ℚ
  confidence : ℚ
  profitabilityScore : Option ℚ
  expiresAt : ℤ
  cardCount : ℤ
deriving DecidableEq

/-- A scored candidate submitted to the lifecycle manager by `scanSymbol`:
the computed score/confidence/profitability data plus boolean outcomes of the
externally-driven checks (entry zone, risk/reward, market state for
`passesMarketGuards`; `calculateMarketVolatility > 0.5` for `marketVolatile`). -/
structure Candidate where
  symbol : String
  direction : Direction
  score : ℚ
  confidence : ℚ
  profitabilityScore : ℚ
  id : String
  expiresAt : ℤ
  passesMarketGuards : Bool
  marketVolatile : Bool
deriving DecidableEq

/-- The mutable scanner state: the `activePredictions` map (insertion order),
the in-memory `cardCounts` map, and the card counts of the database-side
`symbolStats` map of `db/predictions.ts`. -/
structure ScannerState where
  active : List Prediction
  cardCounts : List (String × ℤ)
  symbolStats : List (String × ℤ)
deriving DecidableEq

/-- JS `Map.prototype.set`: overwrite in place when the key exists, append
otherwise. -/
def mapSet {α : Type} (m : List (String × α)) (k : String) (v : α) : List (String × α) :=
  if m.any (fun e => e.1 == k) then
    m.map (fun e => if e.1 == k then (k, v) else e)
  else m ++ [(k, v)]

/-- `Map.set` on the `activePredictions` map keyed by prediction id. -/
def predSet (m : List Prediction) (p : Prediction) : List Prediction :=
  if m.any (fun q => q.id == p.id) then
    m.map (fun q => if q.id == p.id then p else q)
  else m ++ [p]

/-- `Map.delete` on the `activePredictions` map. -/
def predDelete (m : List Prediction) (i : String) : List Prediction :=
  m.filter (fun q => !(q.id == i))

/-- `list.sort(ascending by f)[0]`: the first element attaining the minimum of
`f` (JS `Array.prototype.sort` is stable). -/
def firstMinBy (f : Prediction → ℚ) : List Prediction → Option Prediction
  | [] => none
  | p :: ps => some (ps.foldl (fun b q => if f q < f b then q else b) p)

/-- `list.sort(descending by confidence)[0]`: the first element attaining the
maximum confidence. -/
def bestOf : List Prediction → Option Prediction
  | [] => none
  | p :: ps => some (ps.foldl (fun b q => if b.confidence < q.confidence then q else b) p)

/-- `p.profitabilityScore || p.confidence`. -/
def profOrConf (p : Prediction) : ℚ :=
  jsOr p.profitabilityScore p.confidence

/-- `maxActivePredictions = 10`. -/
def maxActivePredictions : ℕ := 10

/-- `shouldCreatePrediction` from `scanner/index.ts`: three-way duplicate
check, dynamic minimum confidence, free-capacity admission, and the
5-point-margin comparison against the lowest active confidence when full. -/
def shouldCreatePrediction (st : ScannerState) (c : Candidate) : Bool :=
  if st.active.any (fun p =>
      normalizeSymbol p.symbol == normalizeSymbol c.symbol ||
      p.symbol == c.symbol || p.symbol == normalizeSymbol c.symbol) then false
  else if c.confidence < (if c.marketVolatile then (50 : ℚ) else 40) then false
  else if st.active.length < maxActivePredictions then true
  else
    match firstMinBy (fun p => p.confidence) st.active with
    | none => false
    | some lowest => decide (lowest.confidence + 5 < c.confidence)

/-- `+1` for a long prediction, `-1` for a short one. -/
def dirDelta : Direction → ℤ
  | .long => 1
  | .short => -1

/-- The insertion tail of `createPrediction`: build the `Prediction` record,
`Map.set` it into the active map, write the in-memory card count under the
normalized symbol (computed from the count read under the raw symbol), and run
`updateSymbolCardCount` on the database stats. -/
def finishCreate (st : ScannerState) (c : Candidate) (normalizedSymbol : String) :
    Bool × ScannerState :=
  let cardCount := (st.cardCounts.lookup c.symbol).getD 0
  let pred : Prediction :=
    { id := c.id, symbol := normalizedSymbol, direction := c.direction, score := c.score,
      confidence := c.confidence, profitabilityScore := some c.profitabilityScore,
      expiresAt := c.expiresAt, cardCount := cardCount }
  (true,
   { active := predSet st.active pred,
     cardCounts := mapSet st.cardCounts normalizedSymbol (cardCount + dirDelta c.direction),
     symbolStats := mapSet st.symbolStats normalizedSymbol
       (((st.symbolStats.lookup normalizedSymbol).getD 0) + dirDelta c.direction) })

/-- `createPrediction` from `scanner/index.ts`: externally-driven guard
rejections, the normalized-symbol duplicate re-check, the
profitability-or-confidence eviction with a 10-point margin at capacity, and
the insertion tail. -/
def createPrediction (st : ScannerState) (c : Candidate) : Bool × ScannerState :=
  if c.passesMarketGuards = false then (false, st)
  else if st.active.any (fun p =>
      normalizeSymbol p.symbol == normalizeSymbol c.symbol) then (false, st)
  else if maxActivePredictions ≤ st.active.length then
    match firstMinBy profOrConf st.active with
    | none => (false, st)
    | some lowest =>
      if c.profitabilityScore ≤ profOrConf lowest + 10 then (false, st)
      else finishCreate { st with active := predDelete st.active lowest.id } c
        (normalizeSymbol c.symbol)
  else finishCreate st c (normalizeSymbol c.symbol)

/-- The admission pipeline of `scanSymbol`: `shouldCreatePrediction` followed by
`createPrediction`; the first component reports whether a prediction was
created. -/
def tryCreatePrediction (st : ScannerState) (c : Candidate) : Bool × ScannerState :=
  if shouldCreatePrediction st c then createPrediction st c else (false, st)

/-- `cleanupExpiredPredictions`: delete every active prediction with
`expiresAt ≤ now` (outcome recording does not touch the scanner state). -/
def cleanupExpiredPredictions (st : ScannerState) (now : ℤ) : ScannerState :=
  { st with active := st.active.filter (fun p => ¬ (p.expiresAt ≤ now)) }

/-- The group of active predictions sharing a normalized symbol, in map order. -/
def predGroup (l : List Prediction) (sym : String) : List Prediction :=
  l.filter (fun q => normalizeSymbol q.symbol == sym)

/-- The active list after `cleanupDuplicatePredictions`: group by normalized
symbol and keep, in each group, exactly the first highest-confidence entry
(the element the JS stable descending sort puts at index 0). -/
def dedupActive (l : List Prediction) : List Prediction :=
  l.filter (fun p =>
    (bestOf (predGroup l (normalizeSymbol p.symbol))).any (fun b => b.id == p.id))

/-- `cleanupDuplicatePredictions` from `scanner/index.ts`. -/
def cleanupDuplicatePredictions (st : ScannerState) : ScannerState :=
  { st with active := dedupActive st.active }

/-- States reachable by the lifecycle manager: start with an empty active map
and arbitrary loaded card counts, then any interleaving of admissions, expiry
sweeps and duplicate cleanups. -/
inductive Reachable : ScannerState → Prop where
  | init (cardCounts symbolStats : List (String × ℤ)) :
      Reachable ⟨[], cardCounts, symbolStats⟩
  | create (st : ScannerState) (c : Candidate) :
      Reachable st → Reachable (tryCreatePrediction st c).2
  | expire (st : ScannerState) (now : ℤ) :
      Reachable st → Reachable (cleanupExpiredPredictions st now)
  | dedup (st : ScannerState) :
      Reachable st → Reachable (cleanupDuplicatePredictions st)

/-- States reachable when every submitted candidate has a well-formed market
symbol, i.e. one containing at most one slash (exchange symbols are always
`BASE/QUOTE`). -/
inductive ReachableWF : ScannerState → Prop where
  | init (cardCounts symbolStats : List (String × ℤ)) :
      ReachableWF ⟨[], cardCounts, symbolStats⟩
  | create (st : ScannerState) (c : Candidate) :
      c.symbol.data.count '/' ≤ 1 →
      ReachableWF st → ReachableWF (tryCreatePrediction st c).2
  | expire (st : ScannerState) (now : ℤ) :
      ReachableWF st → ReachableWF (cleanupExpiredPredictions st now)
  | dedup (st : ScannerState) :
      ReachableWF st → ReachableWF (cleanupDuplicatePredictions st)

/-- The two active-set invariants of the specification. -/
def ActiveInvariant (st : ScannerState) : Prop :=
  st.active.length ≤ maxActivePredictions ∧
  st.active.Pairwise (fun p q => normalizeSymbol p.symbol ≠ normalizeSymbol q.symbol)

/-! ## Outcome bookkeeping (`db/predictions.ts` and `calculatePredictionOutcome`) -/

/-- `PredictionOutcome` from `db/predictions.ts`. -/
structure PredictionOutcome where
  predictionId : String
  pnlPercent : ℚ
  closedAt : String
  actualDuration : ℤ
deriving DecidableEq

/-- `getSuccessRate` from `db/predictions.ts`, as a function of the stored
outcome values. -/
def getSuccessRate (outcomes : List PredictionOutcome) : ℚ :=
  if outcomes.length = 0 then 0
  else
    (((outcomes.filter (fun o => decide (0 < o.pnlPercent))).length : ℚ) /
      (outcomes.length : ℚ)) * 100

/-- The PnL computation of `calculatePredictionOutcome` in `scanner/index.ts`. -/
def pnlPercent (direction : Direction) (entryPrice currentPrice : ℚ) : ℚ :=
  match direction with
  | .long => (currentPrice - entryPrice) / entryPrice * 100
  | .short => (entryPrice - currentPrice) / entryPrice * 100

/-! ## Spec-side comparison definition for the co-occurrence bonus -/

/-- Modelled from the spec: the co-occurrence bonus as §4.1 step 5 words it,
grouping the signals by their actual `(timeframe, direction)` pair — for any
group with at least three contributing signals, a bonus proportional to
`(count - 2)` in that group's direction. Used to compare against the
key-splitting computation the code performs. -/
def specCooccurrenceBonus (features : List IndicatorFeature) : ℚ :=
  let pairs := features.filterMap (fun f => f.direction.map (fun d => (f.timeframe, d)))
  ((firstDedup pairs).map (fun g =>
    let c := (pairs.filter (fun q => q == g)).length
    if 3 ≤ c then
      ((c : ℚ) - 2) * (3 / 10) * (if g.2 = Direction.long then 1 else -1)
    else 0)).sum

/-! ## Concrete inputs used by counterexamples and witnesses -/

/-- A directional feature with unit weight and strength. -/
def mkFeature (n tf : String) (d : Direction) : IndicatorFeature :=
  { name := n, timeframe := tf, direction := some d, weight := some 1, strength := some 1 }

/-- Two directional signals: below the confluence minimum of three. -/
def featC1w : List IndicatorFeature :=
  [mkFeature "RSI" "1h" Direction.long, mkFeature "MACD" "1h" Direction.short]

/-- The three EMA signals `calculateIndicators` emits on one timeframe, all
agreeing long. -/
def featC6 : List IndicatorFeature :=
  [mkFeature "EMA_20" "1h" Direction.long, mkFeature "EMA_50" "1h" Direction.long,
   mkFeature "EMA_CROSS" "1h" Direction.long]

/-- The same three agreeing long signals with underscore-free names. -/
def featC6ok : List IndicatorFeature :=
  [mkFeature "RSI" "1h" Direction.long, mkFeature "MACD" "1h" Direction.long,
   mkFeature "BB" "1h" Direction.long]

/-- A winning recorded outcome. -/
def outcomeWin : PredictionOutcome :=
  { predictionId := "a", pnlPercent := 5, closedAt := "t1", actualDuration := 60 }

/-- A losing recorded outcome. -/
def outcomeLoss : PredictionOutcome :=
  { predictionId := "b", pnlPercent := -3, closedAt := "t2", actualDuration := 90 }

/-- The empty initial scanner state. -/
def st0 : ScannerState := ⟨[], [], []⟩

/-- A candidate whose raw symbol holds two slashes. -/
def candA : Candidate :=
  { symbol := "A/BC/D", direction := .long, score := 3, confidence := 70,
    profitabilityScore := 50, id := "idA", expiresAt := 1000,
    passesMarketGuards := true, marketVolatile := false }

/-- A second two-slash candidate whose normalized symbol collides with the
stored symbol of `candA` only after a second normalisation. -/
def candB : Candidate :=
  { symbol := "A/B/CD", direction := .long, score := 3, confidence := 70,
    profitabilityScore := 50, id := "idB", expiresAt := 1000,
    passesMarketGuards := true, marketVolatile := false }

/-- The state after admitting `candA` and then `candB`. -/
def stBad : ScannerState :=
  (tryCreatePrediction (tryCreatePrediction st0 candA).2 candB).2

/-- An active prediction with confidence `conf` and profitability `prof`. -/
def mkP (i : ℕ) (conf prof : ℚ) : Prediction :=
  { id := "p" ++ toString i, symbol := "S" ++ toString i ++ "USDT", direction := .long,
    score := 3, confidence := conf, profitabilityScore := some prof,
    expiresAt := 10000000, cardCount := 0 }

/-- The active entry with the strictly lowest confidence but a high
profitability score. -/
def e1 : Prediction := mkP 1 50 90

/-- The active entry with the lowest profitability score but a high
confidence. -/
def e2 : Prediction := mkP 2 80 20

/-- A scanner state at full capacity (ten active predictions). -/
def stFull : ScannerState :=
  ⟨[e1, e2, mkP 3 60 50, mkP 4 60 50, mkP 5 60 50, mkP 6 60 50, mkP 7 60 50,
    mkP 8 60 50, mkP 9 60 50, mkP 10 60 50], [], []⟩

/-- A candidate whose confidence beats the lowest active confidence by far more
than the margin. -/
def cand3 : Candidate :=
  { symbol := "NEW/USDT", direction := .long, score := 3, confidence := 86,
    profitabilityScore := 40, id := "pnew", expiresAt := 10000000,
    passesMarketGuards := true, marketVolatile := false }

/-- First long admission for the sentiment scenario. -/
def candL1 : Candidate :=
  { symbol := "BTC/USDT", direction := .long, score := 3, confidence := 70,
    profitabilityScore := 50, id := "b1", expiresAt := 100,
    passesMarketGuards := true, marketVolatile := false }

/-- Second long admission for the sentiment scenario. -/
def candL2 : Candidate := { candL1 with id := "b2" }

/-- The final short admission for the sentiment scenario. -/
def candS3 : Candidate := { candL1 with id := "b3", direction := .short }

/-- First admission step of the sentiment scenario. -/
def st7a : Bool × ScannerState := tryCreatePrediction st0 candL1

/-- Second admission, after the first prediction expires. -/
def st7b : Bool × ScannerState :=
  tryCreatePrediction (cleanupExpiredPredictions st7a.2 200) candL2

/-- Third admission, after the second prediction expires. -/
def st7c : Bool × ScannerState :=
  tryCreatePrediction (cleanupExpiredPredictions st7b.2 200) candS3

/-- A state with two active predictions sharing the normalized symbol
`BTCUSDT` plus an unrelated one. -/
def stDup : ScannerState :=
  ⟨[{ id := "q1", symbol := "BTCUSDT", direction := .long, score := 1, confidence := 60,
      profitabilityScore := some 50, expiresAt := 0, cardCount := 0 },
    { id := "q2", symbol := "BTC/USDT", direction := .long, score := 1, confidence := 75,
      profitabilityScore := some 50, expiresAt := 0, cardCount := 0 },
    { id := "q3", symbol := "ETHUSDT", direction := .short, score := -1, confidence := 40,
      profitabilityScore := some 50, expiresAt := 0, cardCount := 0 }], [], []⟩

/-! ## Claim theorems -/

/-- A record assignment grows the association list by at most one entry. -/
theorem recordSet_length_le (m : List (String × ℚ)) (k : String) (v : ℚ) :
    (recordSet m k v).length ≤ m.length + 1 := by
  unfold recordSet
  split
  · simp
  · simp

/-- `indicatorCount` over a cons. -/
theorem indicatorCount_cons (f : IndicatorFeature) (fs : List IndicatorFeature) :
    indicatorCount (f :: fs) =
      (if f.direction.isSome then 1 else 0) + indicatorCount fs := by
  unfold indicatorCount
  rw [List.filter_cons]
  split
  · simp [Nat.add_comm]
  · simp

/-- The breakdown record never holds more entries than there are directional
signals. -/
theorem buildBreakdown_length_le (features : List IndicatorFeature) :
    (buildBreakdown features).length ≤ indicatorCount features := by
  have main : ∀ (fs : List IndicatorFeature) (acc : List (String × ℚ)),
      (fs.foldl (fun m f =>
        match f.direction with
        | none => m
        | some d => recordSet m (featureKey f d) (contributionBase f)) acc).length ≤
        acc.length + indicatorCount fs := by
    intro fs
    induction fs with
    | nil => intro acc; simp [indicatorCount]
    | cons f fs ih =>
      intro acc
      rw [List.foldl_cons, indicatorCount_cons]
      cases hd : f.direction with
      | none => simpa [hd] using (ih acc).trans (by omega)
      | some d =>
        simp only [hd]
        refine (ih _).trans ?_
        have := recordSet_length_le acc (featureKey f d) (contributionBase f)
        simp [hd]
        omega
  simpa [buildBreakdown] using main features []

/-- When there are fewer than three breakdown keys no co-occurrence group can
reach the threshold, so the bonus vanishes. -/
theorem cooccurrenceBonus_eq_zero (keys : List String) (h : keys.length < 3) :
    cooccurrenceBonus keys = 0 := by
  unfold cooccurrenceBonus
  apply List.sum_eq_zero
  intro x hx
  rw [List.mem_map] at hx
  obtain ⟨g, _, rfl⟩ := hx
  have hle : (keys.filter (fun k => groupKey k == g)).length ≤ keys.length :=
    List.length_filter_le _ _
  rw [if_neg (by omega)]

/-- Counterexample to claim C1 as stated: the empty signal list has fewer than
three directional signals, yet with sentiment counter 1 `computeScore` returns
`0.15`, not `0`. -/
theorem C1_gate_counterexample :
    indicatorCount [] < 3 ∧ (computeScore [] 1).score = 3 / 20 ∧
      ¬ (computeScore [] 1).score = 0 :=
  by decide!

/-- Claim C1 as amended: when fewer than the minimum of three directional
signals are present, the gate zeroes the signal-derived score but the sentiment
contribution is still added, so `computeScore` returns exactly
`cardContribution cardCount` (which is 0 whenever the counter is 0). -/
theorem C1_gate_amended (features : List IndicatorFeature) (cardCount : ℤ)
    (h : indicatorCount features < 3) :
    (computeScore features cardCount).score = cardContribution cardCount := by
  have hgate : gatedScore features = 0 := by
    unfold gatedScore
    rw [if_pos h]
  have hkeys : ((buildBreakdown features).map Prod.fst).length < 3 := by
    rw [List.length_map]
    exact lt_of_le_of_lt (buildBreakdown_length_le features) h
  have hbonus := cooccurrenceBonus_eq_zero _ hkeys
  simp [computeScore, hgate, hbonus]

/-- Witness for the amended C1 at two directional signals and counter 7. -/
theorem C1_gate_witness :
    indicatorCount featC1w < 3 ∧
      (computeScore featC1w 7).score = cardContribution 7 :=
  ⟨by decide, C1_gate_amended featC1w 7 (by decide)⟩

/-- Claim C6 (a code bug): on the three agreeing long EMA signals that
`calculateIndicators` emits for one timeframe — whose names contain
underscores — the `(timeframe, direction)` group of the specification holds
three contributing signals and would earn a `0.3` bonus (total `2.4`), but
`computeScore` misparses the breakdown keys (the second and third
underscore-separated parts of `EMA_20_1h_long` are `20` and `1h`) and returns
`2.1` with no bonus at all; the identical signal set under underscore-free
names does receive the bonus, pinning the loss on the key parsing. -/
theorem C6_cooccurrence_code_bug :
    indicatorCount featC6 = 3 ∧
      (computeScore featC6 0).score = 21 / 10 ∧
      gatedScore featC6 + specCooccurrenceBonus featC6 + cardContribution 0 = 12 / 5 ∧
      ¬ (21 : ℚ) / 10 = 12 / 5 ∧
      (computeScore featC6ok 0).score = 12 / 5 ∧
      specCooccurrenceBonus featC6ok = specCooccurrenceBonus featC6 :=
  by decide!

/-- A fold that at each step keeps either the accumulator or the next element
ends on a member of the initial accumulator consed onto the list. -/
theorem foldl_pick_mem {α : Type} (step : α → α → α)
    (hstep : ∀ b q, step b q = b ∨ step b q = q) :
    ∀ (ps : List α) (p : α), ps.foldl step p ∈ p :: ps := by
  intro ps
  induction ps with
  | nil => intro p; simp
  | cons q qs ih =>
    intro p
    rw [List.foldl_cons]
    rcases List.mem_cons.mp (ih (step p q)) with h | h
    · rw [h]
      rcases hstep p q with h3 | h3 <;> rw [h3] <;> simp
    · simp [List.mem_cons, h]

/-- The element `bestOf` selects belongs to the list. -/
theorem bestOf_mem {l : List Prediction} {b : Prediction} (h : bestOf l = some b) :
    b ∈ l := by
  cases l with
  | nil => simp [bestOf] at h
  | cons p ps =>
    simp only [bestOf, Option.some_inj] at h
    rw [← h]
    exact foldl_pick_mem _
      (fun b q => by
        by_cases hc : b.confidence < q.confidence
        · rw [if_pos hc]; exact Or.inr rfl
        · rw [if_neg hc]; exact Or.inl rfl) ps p

/-- Auxiliary fold bound: the confidence-maximising fold dominates every
element it has seen. -/
theorem foldl_best_ge :
    ∀ (ps : List Prediction) (p q : Prediction), q ∈ p :: ps →
      q.confidence ≤
        (ps.foldl (fun b r => if b.confidence < r.confidence then r else b) p).confidence := by
  intro ps
  induction ps with
  | nil =>
    intro p q hq
    rw [List.mem_singleton] at hq
    subst hq
    simp
  | cons r rs ih =>
    intro p q hq
    rw [List.foldl_cons]
    have hdom_p : p.confidence ≤
        (if p.confidence < r.confidence then r else p).confidence := by
      split
      · exact le_of_lt (by assumption)
      · exact le_refl _
    have hdom_r : r.confidence ≤
        (if p.confidence < r.confidence then r else p).confidence := by
      split
      · exact le_refl _
      · exact le_of_not_lt (by assumption)
    rcases List.mem_cons.mp hq with rfl | hq2
    · exact le_trans hdom_p (ih _ _ (List.mem_cons_self _ _))
    · rcases List.mem_cons.mp hq2 with rfl | hq3
      · exact le_trans hdom_r (ih _ _ (List.mem_cons_self _ _))
      · exact ih _ q (List.mem_cons_of_mem _ hq3)

/-- `bestOf` dominates the confidences of the whole list. -/
theorem bestOf_ge {l : List Prediction} {b : Prediction} (h : bestOf l = some b) :
    ∀ q ∈ l, q.confidence ≤ b.confidence := by
  cases l with
  | nil => simp
  | cons p ps =>
    simp only [bestOf, Option.some_inj] at h
    intro q hq
    rw [← h]
    exact foldl_best_ge ps p q hq

/-- The element `firstMinBy` selects belongs to the list. -/
theorem firstMinBy_mem {f : Prediction → ℚ} {l : List Prediction} {b : Prediction}
    (h : firstMinBy f l = some b) : b ∈ l := by
  cases l with
  | nil => simp [firstMinBy] at h
  | cons p ps =>
    simp only [firstMinBy, Option.some_inj] at h
    rw [← h]
    exact foldl_pick_mem _
      (fun b q => by
        by_cases hc : f q < f b
        · rw [if_pos hc]; exact Or.inr rfl
        · rw [if_neg hc]; exact Or.inl rfl) ps p

/-- Auxiliary fold bound for the minimising fold. -/
theorem foldl_min_le (f : Prediction → ℚ) :
    ∀ (ps : List Prediction) (p q : Prediction), q ∈ p :: ps →
      f (ps.foldl (fun b r => if f r < f b then r else b) p) ≤ f q := by
  intro ps
  induction ps with
  | nil =>
    intro p q hq
    rw [List.mem_singleton] at hq
    subst hq
    simp
  | cons r rs ih =>
    intro p q hq
    rw [List.foldl_cons]
    have hdom_p : f (if f r < f p then r else p) ≤ f p := by
      split
      · exact le_of_lt (by assumption)
      · exact le_refl _
    have hdom_r : f (if f r < f p then r else p) ≤ f r := by
      split
      · exact le_refl _
      · exact le_of_not_lt (by assumption)
    rcases List.mem_cons.mp hq with rfl | hq2
    · exact le_trans (ih _ _ (List.mem_cons_self _ _)) hdom_p
    · rcases List.mem_cons.mp hq2 with rfl | hq3
      · exact le_trans (ih _ _ (List.mem_cons_self _ _)) hdom_r
      · exact ih _ q (List.mem_cons_of_mem _ hq3)

/-- `firstMinBy` minimises `f` over the list. -/
theorem firstMinBy_le {f : Prediction → ℚ} {l : List Prediction} {b : Prediction}
    (h : firstMinBy f l = some b) : ∀ q ∈ l, f b ≤ f q := by
  cases l with
  | nil => simp
  | cons p ps =>
    simp only [firstMinBy, Option.some_inj] at h
    intro q hq
    rw [← h]
    exact foldl_min_le f ps p q hq

/-- Two active predictions with the same id are equal when the id column is
duplicate-free. -/
theorem eq_of_id_eq {l : List Prediction} (hnd : (l.map Prediction.id).Nodup)
    {p q : Prediction} (hp : p ∈ l) (hq : q ∈ l) (h : p.id = q.id) : p = q :=
  List.inj_on_of_nodup_map hnd hp hq h

/-- Membership in a normalized-symbol group. -/
theorem mem_predGroup {l : List Prediction} {sym : String} {q : Prediction} :
    q ∈ predGroup l sym ↔ q ∈ l ∧ normalizeSymbol q.symbol = sym := by
  simp [predGroup, List.mem_filter]

/-- The dedup sweep only removes entries. -/
theorem dedupActive_sublist (l : List Prediction) : List.Sublist (dedupActive l) l :=
  List.filter_sublist _

/-- What membership in the dedup result means. -/
theorem keep_of_mem_dedupActive {l : List Prediction} {p : Prediction}
    (h : p ∈ dedupActive l) :
    p ∈ l ∧ ∃ b, bestOf (predGroup l (normalizeSymbol p.symbol)) = some b ∧ b.id = p.id := by
  rw [dedupActive, List.mem_filter] at h
  refine ⟨h.1, ?_⟩
  have h2 := h.2
  rcases hb : bestOf (predGroup l (normalizeSymbol p.symbol)) with _ | b
  · rw [hb] at h2
    simp at h2
  · rw [hb] at h2
    simp only [Option.any_some, beq_iff_eq] at h2
    exact ⟨b, rfl, h2⟩

/-- Two kept entries with the same normalized symbol are the same entry. -/
theorem dedup_unique {l : List Prediction} (hnd : (l.map Prediction.id).Nodup)
    {p q : Prediction} (hp : p ∈ dedupActive l) (hq : q ∈ dedupActive l)
    (hsym : normalizeSymbol p.symbol = normalizeSymbol q.symbol) : p = q := by
  obtain ⟨hpl, bp, hbp, hbpid⟩ := keep_of_mem_dedupActive hp
  obtain ⟨hql, bq, hbq, hbqid⟩ := keep_of_mem_dedupActive hq
  rw [hsym] at hbp
  have hbb : bp = bq := Option.some_inj.mp (hbp.symm.trans hbq)
  exact eq_of_id_eq hnd hpl hql (hbpid.symm.trans (hbb ▸ hbqid))

/-- After the sweep the normalized symbols are pairwise distinct. -/
theorem dedup_pairwise {l : List Prediction} (hnd : (l.map Prediction.id).Nodup) :
    (dedupActive l).Pairwise
      (fun p q => normalizeSymbol p.symbol ≠ normalizeSymbol q.symbol) := by
  have hnd2 : (dedupActive l).Nodup := (hnd.of_map).sublist (dedupActive_sublist l)
  refine List.Pairwise.imp_of_mem ?_ hnd2
  intro a b ha hb hne heq
  exact hne (dedup_unique hnd ha hb heq)

/-- The kept entry of each group dominates the confidences of its group. -/
theorem dedup_kept_max {l : List Prediction} (hnd : (l.map Prediction.id).Nodup)
    {p : Prediction} (hp : p ∈ dedupActive l) :
    ∀ q ∈ l, normalizeSymbol q.symbol = normalizeSymbol p.symbol →
      q.confidence ≤ p.confidence := by
  obtain ⟨hpl, b, hb, hbid⟩ := keep_of_mem_dedupActive hp
  have hbmem := bestOf_mem hb
  have hbeq : b = p := eq_of_id_eq hnd (mem_predGroup.mp hbmem).1 hpl hbid
  intro q hq hqs
  have hqg : q ∈ predGroup l (normalizeSymbol p.symbol) := mem_predGroup.mpr ⟨hq, hqs⟩
  have := bestOf_ge hb q hqg
  rwa [hbeq] at this

/-- A duplicate-free list whose members all equal `p` and which holds `p` is
the singleton `[p]`. -/
theorem nodup_all_eq_singleton {α : Type} {l : List α} {p : α} (hnd : l.Nodup)
    (hall : ∀ x ∈ l, x = p) (hp : p ∈ l) : l = [p] := by
  cases l with
  | nil => simp at hp
  | cons a as =>
    have ha : a = p := hall a (List.mem_cons_self _ _)
    subst ha
    have hnil : as = [] := by
      cases as with
      | nil => rfl
      | cons b bs =>
        have hb : b = a := hall b (by simp)
        exact absurd (hb ▸ List.mem_cons_self b bs) (List.nodup_cons.mp hnd).1
    rw [hnil]

/-- Running the sweep on its own output changes nothing. -/
theorem dedupActive_idem {l : List Prediction} (hnd : (l.map Prediction.id).Nodup) :
    dedupActive (dedupActive l) = dedupActive l := by
  have hkeep : ∀ p ∈ dedupActive l,
      ((bestOf (predGroup (dedupActive l) (normalizeSymbol p.symbol))).any
        (fun b => b.id == p.id)) = true := by
    intro p hpt
    have hgroup : predGroup (dedupActive l) (normalizeSymbol p.symbol) = [p] := by
      have hmem : p ∈ predGroup (dedupActive l) (normalizeSymbol p.symbol) :=
        mem_predGroup.mpr ⟨hpt, rfl⟩
      have hall : ∀ x ∈ predGroup (dedupActive l) (normalizeSymbol p.symbol), x = p := by
        intro x hx
        obtain ⟨hxt, hxs⟩ := mem_predGroup.mp hx
        exact dedup_unique hnd hxt hpt hxs
      have hndt : (dedupActive l).Nodup := (hnd.of_map).sublist (dedupActive_sublist l)
      exact nodup_all_eq_singleton (hndt.sublist (List.filter_sublist _)) hall hmem
    rw [hgroup]
    simp [bestOf]
  exact List.filter_eq_self.mpr hkeep

/-- Membership after a `Map.set` on the active map. -/
theorem mem_predSet {m : List Prediction} {p x : Prediction} (h : x ∈ predSet m p) :
    x = p ∨ x ∈ m := by
  unfold predSet at h
  split at h
  · rw [List.mem_map] at h
    obtain ⟨q, hq, hqx⟩ := h
    by_cases hid : q.id == p.id
    · rw [if_pos hid] at hqx
      exact Or.inl hqx.symm
    · rw [if_neg hid] at hqx
      exact Or.inr (hqx ▸ hq)
  · rcases List.mem_append.mp h with h2 | h2
    · exact Or.inr h2
    · exact Or.inl (List.mem_singleton.mp h2)

/-- When the inserted id is fresh, `Map.set` is an append. -/
theorem predSet_of_fresh {m : List Prediction} {p : Prediction}
    (h : p.id ∉ m.map Prediction.id) : predSet m p = m ++ [p] := by
  unfold predSet
  rw [if_neg]
  intro hany
  rw [List.any_eq_true] at hany
  obtain ⟨q, hq, hqid⟩ := hany
  exact h (List.mem_map.mpr ⟨q, hq, eq_of_beq hqid⟩)

/-- Membership after a `Map.delete` on the active map. -/
theorem mem_predDelete {m : List Prediction} {i : String} {x : Prediction} :
    x ∈ predDelete m i ↔ x ∈ m ∧ x.id ≠ i := by
  unfold predDelete
  rw [List.mem_filter]
  simp

/-- Deleting a present key from a map with duplicate-free ids removes exactly
one entry. -/
theorem predDelete_length {m : List Prediction} {low : Prediction}
    (hnd : (m.map Prediction.id).Nodup) (hmem : low ∈ m) :
    (predDelete m low.id).length + 1 = m.length := by
  induction m with
  | nil => simp at hmem
  | cons q rest ih =>
    rw [List.map_cons, List.nodup_cons] at hnd
    show (List.filter (fun x => !(x.id == low.id)) (q :: rest)).length + 1 =
      (q :: rest).length
    rw [List.filter_cons]
    by_cases hq : q.id = low.id
    · have hcond : (!(q.id == low.id)) = false := by simp [hq]
      rw [hcond, if_neg Bool.false_ne_true]
      have hrest : List.filter (fun x => !(x.id == low.id)) rest = rest := by
        apply List.filter_eq_self.mpr
        intro x hx
        simp only [Bool.not_eq_true', beq_eq_false_iff_ne, ne_eq]
        intro hxid
        rw [hq] at hnd
        exact hnd.1 (hxid ▸ List.mem_map_of_mem Prediction.id hx)
      rw [hrest, List.length_cons]
    · have hlow : low ∈ rest := by
        rcases List.mem_cons.mp hmem with h | h
        · exact absurd (by rw [h]) hq
        · exact h
      have hcond : (!(q.id == low.id)) = true := by simp [hq]
      rw [hcond, if_pos rfl, List.length_cons, List.length_cons]
      have h2 := ih hnd.2 hlow
      unfold predDelete at h2
      omega

/-- Counterexample to claim C3 as stated: from the full state `stFull` the
candidate `cand3` is admitted, yet the lowest-confidence active entry `e1`
(confidence 50, strictly below every other entry) is still active afterwards —
the eviction picked the lowest profitability-or-confidence entry instead. -/
theorem C3_admission_counterexample :
    (tryCreatePrediction stFull cand3).1 = true ∧
      e1 ∈ (tryCreatePrediction stFull cand3).2.active ∧
      stFull.active.all (fun q => q.id == e1.id ||
        decide (e1.confidence < q.confidence)) = true := by
  decide!

/-- `Char.ofNat` on a scalar value below the surrogate range evaluates back. -/
theorem char_toNat_ofNat_small {n : ℕ} (h : n < 55296) : (Char.ofNat n).toNat = n := by
  rw [Char.ofNat, dif_pos (Or.inl h)]
  rfl

/-- `Char.toUpper` is idempotent. -/
theorem toUpper_idem (c : Char) : c.toUpper.toUpper = c.toUpper := by
  unfold Char.toUpper
  by_cases h : c.toNat ≥ 97 ∧ c.toNat ≤ 122
  · rw [if_pos h]
    have hv : (Char.ofNat (c.toNat - 32)).toNat = c.toNat - 32 :=
      char_toNat_ofNat_small (by omega)
    rw [if_neg (by rw [hv]; omega)]
  · rw [if_neg h, if_neg h]

/-- Only a slash uppercases to a slash. -/
theorem eq_slash_of_toUpper_eq_slash {c : Char} (h : c.toUpper = '/') : c = '/' := by
  by_cases hc : c.toNat ≥ 97 ∧ c.toNat ≤ 122
  · exfalso
    unfold Char.toUpper at h
    rw [if_pos hc] at h
    have hv : (Char.ofNat (c.toNat - 32)).toNat = c.toNat - 32 :=
      char_toNat_ofNat_small (by omega)
    have h47 := congrArg Char.toNat h
    rw [hv] at h47
    have : ('/' : Char).toNat = 47 := rfl
    omega
  · unfold Char.toUpper at h
    rwa [if_neg hc] at h

/-- Uppercasing a slash-free character list keeps it slash-free. -/
theorem not_slash_map_toUpper {l : List Char} (h : '/' ∉ l) :
    '/' ∉ l.map Char.toUpper := by
  intro hmem
  rw [List.mem_map] at hmem
  obtain ⟨c, hc, hcu⟩ := hmem
  exact h (eq_slash_of_toUpper_eq_slash hcu ▸ hc)

/-- Removing the first occurrence of an absent character changes nothing. -/
theorem removeFirstChar_of_not_mem {c : Char} {l : List Char} (h : c ∉ l) :
    removeFirstChar c l = l := by
  induction l with
  | nil => rfl
  | cons x xs ih =>
    rw [removeFirstChar]
    rw [if_neg (fun hx => h (by rw [← hx]; exact List.mem_cons_self x xs))]
    rw [ih (fun hm => h (List.mem_cons_of_mem _ hm))]

/-- With at most one slash present, removing the first slash removes all. -/
theorem not_mem_removeFirst_of_count_le_one {l : List Char} (h : l.count '/' ≤ 1) :
    '/' ∉ removeFirstChar '/' l := by
  induction l with
  | nil => simp [removeFirstChar]
  | cons x xs ih =>
    rw [removeFirstChar]
    by_cases hx : x = '/'
    · rw [if_pos hx]
      have hxs : xs.count '/' = 0 := by
        rw [List.count_cons] at h
        simp [hx] at h
        omega
      exact List.count_eq_zero.mp hxs
    · rw [if_neg hx]
      intro hmem
      rcases List.mem_cons.mp hmem with h1 | h1
      · exact hx h1.symm
      · refine absurd h1 (ih ?_)
        rw [List.count_cons] at h
        simpa [hx] using h

/-- For symbols with at most one slash — every real exchange symbol —
`normalizeSymbol` is a projection: normalising twice equals normalising
once. -/
theorem normalizeSymbol_fix {s : String} (h : s.data.count '/' ≤ 1) :
    normalizeSymbol (normalizeSymbol s) = normalizeSymbol s := by
  unfold normalizeSymbol jsToUpperCase
  have h1 : '/' ∉ removeFirstChar '/' s.data :=
    not_mem_removeFirst_of_count_le_one h
  have h2 : '/' ∉ (removeFirstChar '/' s.data).map Char.toUpper :=
    not_slash_map_toUpper h1
  rw [show (String.mk ((String.mk (removeFirstChar '/' s.data)).data.map Char.toUpper)).data =
    (removeFirstChar '/' s.data).map Char.toUpper from rfl]
  rw [removeFirstChar_of_not_mem h2]
  congr 1
  rw [List.map_map]
  apply List.map_congr_left
  intro c _
  exact toUpper_idem c

/-- A `Map.set` grows the active map by at most one entry. -/
theorem predSet_length_le (m : List Prediction) (p : Prediction) :
    (predSet m p).length ≤ m.length + 1 := by
  unfold predSet
  split
  · simp
  · simp

/-- A `Map.set` keeps the id column duplicate-free. -/
theorem nodup_ids_predSet (m : List Prediction) (p : Prediction)
    (h : (m.map Prediction.id).Nodup) : ((predSet m p).map Prediction.id).Nodup := by
  unfold predSet
  split
  · have heq : (m.map (fun q => if q.id == p.id then p else q)).map Prediction.id =
        m.map Prediction.id := by
      rw [List.map_map]
      apply List.map_congr_left
      intro q _
      show Prediction.id (if q.id == p.id then p else q) = q.id
      by_cases hq : q.id == p.id
      · rw [if_pos hq]
        exact (eq_of_beq hq).symm
      · rw [if_neg hq]
    rw [heq]
    exact h
  · rename_i hany
    rw [List.map_append, List.nodup_append]
    refine ⟨h, List.nodup_singleton _, ?_⟩
    intro a ha hb
    rw [List.map_singleton, List.mem_singleton] at hb
    subst hb
    rw [List.mem_map] at ha
    obtain ⟨q, hq, hqid⟩ := ha
    exact hany (List.any_eq_true.mpr ⟨q, hq, by simp [hqid]⟩)

/-- Replacing the (unique) entry with the inserted id keeps the pairwise
normalized-symbol distinctness, provided the inserted symbol is fresh. -/
theorem pairwise_replaceById (m : List Prediction) (p : Prediction)
    (hnd : (m.map Prediction.id).Nodup)
    (hp : m.Pairwise (fun a b => normalizeSymbol a.symbol ≠ normalizeSymbol b.symbol))
    (hnew : ∀ q ∈ m, normalizeSymbol q.symbol ≠ normalizeSymbol p.symbol) :
    (m.map (fun q => if q.id == p.id then p else q)).Pairwise
      (fun a b => normalizeSymbol a.symbol ≠ normalizeSymbol b.symbol) := by
  induction m with
  | nil => simp
  | cons a rest ih =>
    rw [List.map_cons, List.nodup_cons] at hnd
    rw [List.pairwise_cons] at hp
    rw [List.map_cons, List.pairwise_cons]
    by_cases ha : a.id == p.id
    · have hrest : rest.map (fun q => if q.id == p.id then p else q) = rest := by
        have hcongr : ∀ q ∈ rest, (if q.id == p.id then p else q) = q := by
          intro q hq
          rw [if_neg]
          intro hqid
          rw [← eq_of_beq ha] at hqid
          exact hnd.1 (eq_of_beq hqid ▸ List.mem_map_of_mem Prediction.id hq)
        calc rest.map (fun q => if q.id == p.id then p else q)
            = rest.map id := List.map_congr_left hcongr
          _ = rest := List.map_id rest
      rw [if_pos ha, hrest]
      refine ⟨?_, hp.2⟩
      intro b hb
      exact fun heq => hnew b (List.mem_cons_of_mem _ hb) heq.symm
    · rw [if_neg ha]
      refine ⟨?_, ih hnd.2 hp.2 (fun q hq => hnew q (List.mem_cons_of_mem _ hq))⟩
      intro b hb
      rw [List.mem_map] at hb
      obtain ⟨q, hq, hqb⟩ := hb
      by_cases hqid : q.id == p.id
      · rw [if_pos hqid] at hqb
        rw [← hqb]
        exact hnew a (List.mem_cons_self _ _)
      · rw [if_neg hqid] at hqb
        rw [← hqb]
        exact hp.1 q hq

/-- A `Map.set` of a prediction with a fresh normalized symbol preserves the
pairwise normalized-symbol distinctness. -/
theorem pairwise_predSet (m : List Prediction) (p : Prediction)
    (hnd : (m.map Prediction.id).Nodup)
    (hp : m.Pairwise (fun a b => normalizeSymbol a.symbol ≠ normalizeSymbol b.symbol))
    (hnew : ∀ q ∈ m, normalizeSymbol q.symbol ≠ normalizeSymbol p.symbol) :
    (predSet m p).Pairwise
      (fun a b => normalizeSymbol a.symbol ≠ normalizeSymbol b.symbol) := by
  unfold predSet
  split
  · exact pairwise_replaceById m p hnd hp hnew
  · rw [List.pairwise_append]
    refine ⟨hp, List.pairwise_singleton _ _, ?_⟩
    intro a ha b hb
    rw [List.mem_singleton] at hb
    subst hb
    exact hnew a ha

/-- The three-part active-map invariant: capacity bound, pairwise distinct
normalized symbols, duplicate-free ids. -/
theorem invariant_of_sublist (l1 l2 : List Prediction) (hsub : List.Sublist l1 l2)
    (h : l2.length ≤ maxActivePredictions ∧
      l2.Pairwise (fun p q => normalizeSymbol p.symbol ≠ normalizeSymbol q.symbol) ∧
      (l2.map Prediction.id).Nodup) :
    l1.length ≤ maxActivePredictions ∧
      l1.Pairwise (fun p q => normalizeSymbol p.symbol ≠ normalizeSymbol q.symbol) ∧
      (l1.map Prediction.id).Nodup :=
  ⟨le_trans hsub.length_le h.1, h.2.1.sublist hsub, h.2.2.sublist (hsub.map _)⟩

/-- The insertion tail preserves the invariant when there is spare capacity,
the inserted normalized symbol is fresh, and normalisation fixes it. -/
theorem finishCreate_invariant (st : ScannerState) (c : Candidate)
    (hcap : st.active.length < maxActivePredictions)
    (hpair : st.active.Pairwise
      (fun p q => normalizeSymbol p.symbol ≠ normalizeSymbol q.symbol))
    (hnd : (st.active.map Prediction.id).Nodup)
    (hdup : ∀ p ∈ st.active,
      normalizeSymbol p.symbol ≠ normalizeSymbol c.symbol)
    (hfix : normalizeSymbol (normalizeSymbol c.symbol) = normalizeSymbol c.symbol) :
    (finishCreate st c (normalizeSymbol c.symbol)).2.active.length ≤ maxActivePredictions ∧
      (finishCreate st c (normalizeSymbol c.symbol)).2.active.Pairwise
        (fun p q => normalizeSymbol p.symbol ≠ normalizeSymbol q.symbol) ∧
      ((finishCreate st c (normalizeSymbol c.symbol)).2.active.map Prediction.id).Nodup := by
  simp only [finishCreate]
  refine ⟨le_trans (predSet_length_le _ _) (by omega), ?_, nodup_ids_predSet _ _ hnd⟩
  apply pairwise_predSet _ _ hnd hpair
  intro q hq
  show normalizeSymbol q.symbol ≠ normalizeSymbol (normalizeSymbol c.symbol)
  rw [hfix]
  exact hdup q hq

/-- The admission pipeline preserves the active-map invariant when the
candidate symbol has at most one slash. -/
theorem invariant_tryCreate (st : ScannerState) (c : Candidate)
    (hslash : c.symbol.data.count '/' ≤ 1)
    (h : st.active.length ≤ maxActivePredictions ∧
      st.active.Pairwise (fun p q => normalizeSymbol p.symbol ≠ normalizeSymbol q.symbol) ∧
      (st.active.map Prediction.id).Nodup) :
    (tryCreatePrediction st c).2.active.length ≤ maxActivePredictions ∧
      (tryCreatePrediction st c).2.active.Pairwise
        (fun p q => normalizeSymbol p.symbol ≠ normalizeSymbol q.symbol) ∧
      ((tryCreatePrediction st c).2.active.map Prediction.id).Nodup := by
  obtain ⟨hlen, hpair, hnd⟩ := h
  have hfix := normalizeSymbol_fix hslash
  unfold tryCreatePrediction
  split
  case isFalse => exact ⟨hlen, hpair, hnd⟩
  unfold createPrediction
  split
  case isTrue.isTrue => exact ⟨hlen, hpair, hnd⟩
  split
  case isTrue => exact ⟨hlen, hpair, hnd⟩
  rename_i hdup
  have hdup2 : ∀ p ∈ st.active, normalizeSymbol p.symbol ≠ normalizeSymbol c.symbol := by
    intro p hp heq
    exact hdup (List.any_eq_true.mpr ⟨p, hp, by simp [heq]⟩)
  split
  case isTrue =>
    split
    case h_1 => exact ⟨hlen, hpair, hnd⟩
    case h_2 low hlowEq =>
      split
      case isTrue => exact ⟨hlen, hpair, hnd⟩
      case isFalse =>
        have hlowmem : low ∈ st.active := firstMinBy_mem hlowEq
        have hdlen := predDelete_length hnd hlowmem
        have hinv := invariant_of_sublist (predDelete st.active low.id) st.active
          (List.filter_sublist _) ⟨hlen, hpair, hnd⟩
        exact finishCreate_invariant
          { st with active := predDelete st.active low.id } c
          (by simp only [predDelete] at hdlen ⊢; omega)
          hinv.2.1 hinv.2.2
          (fun p hp => hdup2 p (mem_predDelete.mp hp).1) hfix
  case isFalse =>
    rename_i hlt
    exact finishCreate_invariant st c (by omega) hpair hnd hdup2 hfix

/-- Counterexample to claim C2 as stated: admitting the two-slash symbols
`A/BC/D` and then `A/B/CD` produces a reachable state whose two active entries
(stored symbols `ABC/D` and `AB/CD`) share the normalized symbol `ABCD` — the
duplicate checks compare a once-normalised stored symbol against a
once-normalised candidate symbol and both miss. -/
theorem C2_invariant_counterexample :
    Reachable stBad ∧ ¬ ActiveInvariant stBad := by
  constructor
  · exact Reachable.create _ candB (Reachable.create _ candA (Reachable.init [] []))
  · intro h
    have hpair := h.2
    have hact : stBad.active.map (fun p => normalizeSymbol p.symbol) =
        ["ABCD", "ABCD"] := by decide!
    cases hl : stBad.active with
    | nil =>
      rw [hl] at hact
      simp at hact
    | cons a rest =>
      cases rest with
      | nil =>
        rw [hl] at hact
        simp at hact
      | cons b rest2 =>
        rw [hl] at hpair hact
        simp only [List.map_cons] at hact
        injection hact with h1 hact2
        injection hact2 with h2 hact3
        exact (List.pairwise_cons.mp hpair).1 b (List.mem_cons_self _ _)
          (h1.trans h2.symm)

/-- Claim C2 as amended: when every admitted candidate's symbol contains at
most one slash (all exchange symbols are `BASE/QUOTE`), every reachable state
of the lifecycle manager keeps at most 10 active predictions and no two of
them share a normalized symbol; admission, capacity eviction, expiry and the
dedup sweep all preserve both conditions. -/
theorem C2_invariant_amended (st : ScannerState) (h : ReachableWF st) :
    ActiveInvariant st := by
  have main : ∀ s, ReachableWF s →
      s.active.length ≤ maxActivePredictions ∧
        s.active.Pairwise (fun p q => normalizeSymbol p.symbol ≠ normalizeSymbol q.symbol) ∧
        (s.active.map Prediction.id).Nodup := by
    intro s hs
    induction hs with
    | init cardCounts symbolStats => exact ⟨by simp [maxActivePredictions], by simp, by simp⟩
    | create st c hslash hr ih => exact invariant_tryCreate st c hslash ih
    | expire st now hr ih =>
      exact invariant_of_sublist _ _ (List.filter_sublist _) ih
    | dedup st hr ih =>
      exact invariant_of_sublist _ _ (dedupActive_sublist _) ih
  exact ⟨(main st h).1, (main st h).2.1⟩

/-- Witness for the amended C2 at the initial state. -/
theorem C2_invariant_witness : ActiveInvariant st0 :=
  C2_invariant_amended st0 (ReachableWF.init [] [])

/-- Claim C3 as amended: at full capacity an admitted candidate must beat the
lowest active confidence by more than 5 points and must also beat the lowest
active profitability-or-confidence by more than 10 points, and the entry
evicted is the first entry minimising profitability-or-confidence — not
necessarily the lowest-confidence entry; every other active entry survives and
the set stays at capacity (for a fresh candidate id). -/
theorem C3_admission_amended (st : ScannerState) (c : Candidate) (low lowC : Prediction)
    (hnd : (st.active.map Prediction.id).Nodup)
    (hfull : st.active.length = maxActivePredictions)
    (hlow : firstMinBy profOrConf st.active = some low)
    (hlowC : firstMinBy (fun p => p.confidence) st.active = some lowC)
    (hfresh : c.id ∉ st.active.map Prediction.id)
    (hadm : (tryCreatePrediction st c).1 = true) :
    lowC.confidence + 5 < c.confidence ∧
      profOrConf low + 10 < c.profitabilityScore ∧
      low ∉ (tryCreatePrediction st c).2.active ∧
      (∀ p ∈ st.active, p ≠ low → p ∈ (tryCreatePrediction st c).2.active) ∧
      (tryCreatePrediction st c).2.active.length = maxActivePredictions := by
  by_cases hs : shouldCreatePrediction st c = true
  case neg =>
    unfold tryCreatePrediction at hadm
    rw [if_neg hs] at hadm
    simp at hadm
  unfold tryCreatePrediction at hadm ⊢
  rw [if_pos hs] at hadm ⊢
  have hconf : lowC.confidence + 5 < c.confidence := by
    unfold shouldCreatePrediction at hs
    simp at hs
    rcases hs.2.2 with hlt | hm
    · rw [hfull] at hlt
      exact absurd hlt (lt_irrefl _)
    · rw [hlowC] at hm
      simpa using hm
  have hg : c.passesMarketGuards = true := by
    cases hgb : c.passesMarketGuards
    · unfold createPrediction at hadm
      rw [if_pos hgb] at hadm
      simp at hadm
    · rfl
  have hgne : ¬ (c.passesMarketGuards = false) := by simp [hg]
  have hge : maxActivePredictions ≤ st.active.length := le_of_eq hfull.symm
  by_cases hdup :
      st.active.any (fun p => normalizeSymbol p.symbol == normalizeSymbol c.symbol) = true
  · unfold createPrediction at hadm
    rw [if_neg hgne] at hadm
    simp only [if_pos hdup] at hadm
    simp at hadm
  by_cases hm : c.profitabilityScore ≤ profOrConf low + 10
  · unfold createPrediction at hadm
    rw [if_neg hgne] at hadm
    simp only [if_neg hdup, if_pos hge, hlow, if_pos hm] at hadm
    simp at hadm
  have heq : createPrediction st c =
      finishCreate { st with active := predDelete st.active low.id } c
        (normalizeSymbol c.symbol) := by
    unfold createPrediction
    rw [if_neg hgne]
    simp only [if_neg hdup, if_pos hge, hlow, if_neg hm]
  rw [heq]
  have hlowmem : low ∈ st.active := firstMinBy_mem hlow
  have hlowid : c.id ≠ low.id := by
    intro hid
    exact hfresh (hid ▸ List.mem_map_of_mem Prediction.id hlowmem)
  have hfreshdel : c.id ∉ (predDelete st.active low.id).map Prediction.id := by
    intro hmem
    rw [List.mem_map] at hmem
    obtain ⟨q, hq, hqid⟩ := hmem
    exact hfresh (List.mem_map.mpr ⟨q, (mem_predDelete.mp hq).1, hqid⟩)
  have hlen : (predDelete st.active low.id).length + 1 = maxActivePredictions :=
    hfull ▸ predDelete_length hnd hlowmem
  refine ⟨hconf, lt_of_not_le hm, ?_, ?_, ?_⟩
  · intro hmem
    simp only [finishCreate] at hmem
    rcases mem_predSet hmem with h | h
    · exact hlowid (by rw [h])
    · exact (mem_predDelete.mp h).2 rfl
  · intro p hp hne
    simp only [finishCreate]
    have hpid : p.id ≠ low.id := by
      intro hid
      exact hne (eq_of_id_eq hnd hp hlowmem hid)
    have hpm : p ∈ predDelete st.active low.id := mem_predDelete.mpr ⟨hp, hpid⟩
    rw [predSet_of_fresh hfreshdel]
    exact List.mem_append_left _ hpm
  · simp only [finishCreate]
    rw [predSet_of_fresh hfreshdel]
    rw [List.length_append]
    simp only [List.length_singleton]
    omega

/-- Witness for the amended C3 at the concrete full state `stFull` and
candidate `cand3`: all hypotheses hold, the candidate is admitted, and the
evicted entry is `e2`, the profitability minimiser. -/
theorem C3_admission_witness :
    ((stFull.active.map Prediction.id).Nodup ∧
      stFull.active.length = maxActivePredictions ∧
      firstMinBy profOrConf stFull.active = some e2 ∧
      firstMinBy (fun p => p.confidence) stFull.active = some e1 ∧
      cand3.id ∉ stFull.active.map Prediction.id ∧
      (tryCreatePrediction stFull cand3).1 = true) ∧
      (e1.confidence + 5 < cand3.confidence ∧
        profOrConf e2 + 10 < cand3.profitabilityScore ∧
        e2 ∉ (tryCreatePrediction stFull cand3).2.active ∧
        (tryCreatePrediction stFull cand3).2.active.length = maxActivePredictions) := by
  have h1 : (stFull.active.map Prediction.id).Nodup := by decide!
  have h2 : stFull.active.length = maxActivePredictions := by decide!
  have h3 : firstMinBy profOrConf stFull.active = some e2 := by decide!
  have h4 : firstMinBy (fun p => p.confidence) stFull.active = some e1 := by decide!
  have h5 : cand3.id ∉ stFull.active.map Prediction.id := by decide!
  have h6 : (tryCreatePrediction stFull cand3).1 = true := by decide!
  have h := C3_admission_amended stFull cand3 e2 e1 h1 h2 h3 h4 h5 h6
  exact ⟨⟨h1, h2, h3, h4, h5, h6⟩, h.1, h.2.1, h.2.2.1, h.2.2.2.2⟩

/-- Claim C7 (a code bug): two admitted long predictions for `BTC/USDT`
followed by an admitted short one leave the database-side card count
(`updateSymbolCardCount`, keyed by the normalized symbol) at `+1` exactly as
the claim states, but the in-memory sentiment counter the scoring engine reads
ends at `-1`: each admission reads the count under the raw symbol
`BTC/USDT` — a key that is never written, so the read is always 0 — and
overwrites the normalized key `BTCUSDT` with `0 ± 1`. -/
theorem C7_sentiment_code_bug :
    st7a.1 = true ∧ st7b.1 = true ∧ st7c.1 = true ∧
      st7c.2.symbolStats.lookup "BTCUSDT" = some 1 ∧
      st7c.2.cardCounts.lookup "BTCUSDT" = some (-1) ∧
      st7c.2.cardCounts.lookup "BTC/USDT" = none := by
  decide!

/-- Claim C8: with duplicate-free prediction ids (a JS `Map` invariant),
running the duplicate-cleanup sweep twice produces the same state as running it
once; after one run at most one entry per normalized symbol remains, and each
kept entry has the highest confidence among the entries of its
normalized-symbol group. -/
theorem C8_dedup_idempotent (st : ScannerState)
    (h : (st.active.map Prediction.id).Nodup) :
    cleanupDuplicatePredictions (cleanupDuplicatePredictions st) =
        cleanupDuplicatePredictions st ∧
      (cleanupDuplicatePredictions st).active.Pairwise
        (fun p q => normalizeSymbol p.symbol ≠ normalizeSymbol q.symbol) ∧
      ∀ p ∈ (cleanupDuplicatePredictions st).active, p ∈ st.active ∧
        ∀ q ∈ st.active, normalizeSymbol q.symbol = normalizeSymbol p.symbol →
          q.confidence ≤ p.confidence := by
  refine ⟨?_, ?_, ?_⟩
  · simp only [cleanupDuplicatePredictions]
    rw [dedupActive_idem h]
  · exact dedup_pairwise h
  · intro p hp
    exact ⟨(keep_of_mem_dedupActive hp).1, dedup_kept_max h hp⟩

/-- Witness for C8 on a state with a duplicated normalized symbol. -/
theorem C8_dedup_witness :
    (stDup.active.map Prediction.id).Nodup ∧
      cleanupDuplicatePredictions (cleanupDuplicatePredictions stDup) =
        cleanupDuplicatePredictions stDup ∧
      (cleanupDuplicatePredictions stDup).active.Pairwise
        (fun p q => normalizeSymbol p.symbol ≠ normalizeSymbol q.symbol) :=
  ⟨by decide, (C8_dedup_idempotent stDup (by decide)).1,
    (C8_dedup_idempotent stDup (by decide)).2.1⟩

/-- Claim C5: for every score at least 0 and every list of agreeing timeframes,
`estimateRunDuration` returns a number of milliseconds between 1,800,000
(30 minutes) and 14,400,000 (4 hours). -/
theorem C5_duration_band (score : ℚ) (timeframesAgreement : List String)
    (h : 0 ≤ score) :
    1800000 ≤ estimateRunDuration score timeframesAgreement ∧
      estimateRunDuration score timeframesAgreement ≤ 14400000 := by
  unfold estimateRunDuration
  dsimp only
  set extra := min (max (score * 10) 0) 210 with hextra
  set hfq : ℚ := ((timeframesAgreement.filter (fun t => ["1h", "2h", "4h"].contains t)).length : ℚ)
  have h1 : (0 : ℚ) ≤ extra := le_min (le_max_right _ _) (by norm_num)
  have h3 : (0 : ℚ) ≤ hfq * 30 := by positivity
  have h4 : (30 : ℚ) ≤ min 240 (30 + extra + hfq * 30) :=
    le_min (by norm_num) (by linarith)
  have h5 : min 240 (30 + extra + hfq * 30) ≤ 240 := min_le_left _ _
  constructor <;> nlinarith

/-- Witness for C5 at score 3 with one agreeing higher timeframe. -/
theorem C5_duration_witness :
    (0 : ℚ) ≤ 3 ∧
      (1800000 ≤ estimateRunDuration 3 ["1h"] ∧
        estimateRunDuration 3 ["1h"] ≤ 14400000) :=
  ⟨by norm_num, C5_duration_band 3 ["1h"] (by norm_num)⟩

/-- Claim C4: for every score, indicator count and non-empty list of signals,
both implementations of `calculateConfidence` (the scanner one and the exchange
one) return a value in the interval `[5, 95]`. -/
theorem C4_confidence_range (score : ℚ) (n : ℕ) (features : List IndicatorFeature)
    (h : features ≠ []) :
    (5 ≤ MarketScanner.calculateConfidence score n features ∧
      MarketScanner.calculateConfidence score n features ≤ 95) ∧
    (5 ≤ Exchange.calculateConfidence score n features ∧
      Exchange.calculateConfidence score n features ≤ 95) := by
  refine ⟨⟨?_, ?_⟩, ⟨?_, ?_⟩⟩
  · exact le_min (le_max_right _ _) (by norm_num)
  · exact min_le_right _ _
  · exact le_min (le_trans (by norm_num) (le_max_right _ _)) (by norm_num)
  · exact min_le_right _ _

/-- Witness for C4 on a one-signal list. -/
theorem C4_confidence_witness :
    featC1w ≠ [] ∧
      ((5 ≤ MarketScanner.calculateConfidence 2 1 featC1w ∧
        MarketScanner.calculateConfidence 2 1 featC1w ≤ 95) ∧
      (5 ≤ Exchange.calculateConfidence 2 1 featC1w ∧
        Exchange.calculateConfidence 2 1 featC1w ≤ 95)) :=
  ⟨by simp [featC1w], C4_confidence_range 2 1 featC1w (by simp [featC1w])⟩

/-- Claim C9: with a non-zero entry price, the recorded PnL percentage is
`(exit - entry) / entry * 100` for a long prediction and
`(entry - exit) / entry * 100` for a short one; when the exit price equals the
entry price it is 0 for either direction. -/
theorem C9_outcome_pnl (entryPrice exitPrice : ℚ) (h : entryPrice ≠ 0) :
    pnlPercent Direction.long entryPrice exitPrice =
        (exitPrice - entryPrice) / entryPrice * 100 ∧
      pnlPercent Direction.short entryPrice exitPrice =
        (entryPrice - exitPrice) / entryPrice * 100 ∧
      pnlPercent Direction.long entryPrice entryPrice = 0 ∧
      pnlPercent Direction.short entryPrice entryPrice = 0 := by
  refine ⟨rfl, rfl, ?_, ?_⟩ <;> simp [pnlPercent]

/-- Witness for C9 at entry price 2 and exit price 3. -/
theorem C9_outcome_witness :
    (2 : ℚ) ≠ 0 ∧
      (pnlPercent Direction.long 2 3 = (3 - 2) / 2 * 100 ∧
        pnlPercent Direction.short 2 3 = (2 - 3) / 2 * 100 ∧
        pnlPercent Direction.long 2 2 = 0 ∧
        pnlPercent Direction.short 2 2 = 0) :=
  ⟨by norm_num, C9_outcome_pnl 2 3 (by norm_num)⟩

/-- Claim C10: `getSuccessRate` returns 0 when no outcomes are recorded,
otherwise 100 times the fraction of recorded outcomes with positive PnL; it is
total and its value always lies in `[0, 100]`. -/
theorem C10_success_rate (outcomes : List PredictionOutcome) :
    (outcomes = [] → getSuccessRate outcomes = 0) ∧
      (outcomes ≠ [] → getSuccessRate outcomes =
        ((outcomes.filter (fun o => decide (0 < o.pnlPercent))).length : ℚ) /
          (outcomes.length : ℚ) * 100) ∧
      0 ≤ getSuccessRate outcomes ∧ getSuccessRate outcomes ≤ 100 := by
  refine ⟨?_, ?_, ?_, ?_⟩
  · intro h
    simp [getSuccessRate, h]
  · intro h
    rw [getSuccessRate, if_neg (by simpa [List.length_eq_zero] using h)]
  · unfold getSuccessRate
    split
    · norm_num
    · positivity
  · unfold getSuccessRate
    split
    · norm_num
    · rename_i hne
      have hlen : (outcomes.filter (fun o => decide (0 < o.pnlPercent))).length ≤
          outcomes.length := List.length_filter_le _ _
      have hpos : (0 : ℚ) < (outcomes.length : ℚ) := by
        have : 0 < outcomes.length := Nat.pos_of_ne_zero hne
        exact_mod_cast this
      have hdiv : ((outcomes.filter (fun o => decide (0 < o.pnlPercent))).length : ℚ) /
          (outcomes.length : ℚ) ≤ 1 := by
        rw [div_le_one hpos]
        exact_mod_cast hlen
      nlinarith

/-- Witness for C10: the empty store and a two-outcome store. -/
theorem C10_success_rate_witness :
    getSuccessRate [] = 0 ∧
      0 ≤ getSuccessRate [outcomeWin, outcomeLoss] ∧
      getSuccessRate [outcomeWin, outcomeLoss] ≤ 100 :=
  ⟨(C10_success_rate []).1 rfl, (C10_success_rate [outcomeWin, outcomeLoss]).2.2.1,
    (C10_success_rate [outcomeWin, outcomeLoss]).2.2.2⟩

end WatchDog
